import Mathlib

/-!
Shallow embedding of the getIE acquisition pipeline (utils/vm.go, final
revision): checksum retrieval, streaming download with an MD5 accumulator,
archive extraction with entry-point selection, and hypervisor installation.

The filesystem is modelled as an association list from paths to entries
(first binding wins), the network as an oracle giving the checksum body and
the archive byte stream, MD5 as an abstract function of the byte sequence
fed to the accumulator, and external tool invocations as a trace of
process actions. The Go string primitives the pipeline uses
(strings.HasSuffix, strings.Split, strings.Join, strings.Replace,
path.Base, path.Join) are embedded as structurally recursive functions on
character lists so that every definition evaluates by kernel reduction.
-/

namespace GetIE

/-- Go `strings.HasSuffix`. -/
def hasSuffix (s pat : String) : Bool :=
  pat.data.reverse.isPrefixOf s.data.reverse

/-- Go `strings.Split` with a one-character separator, on char lists. -/
def splitOnChar (c : Char) : List Char → List (List Char)
  | [] => [[]]
  | x :: xs =>
    let r := splitOnChar c xs
    if x = c then [] :: r
    else
      match r with
      | [] => [[x]]
      | h :: t => (x :: h) :: t

/-- Go `strings.Join` with the given separator, on char lists. -/
def joinWithChars (sep : List Char) : List (List Char) → List Char
  | [] => []
  | [x] => x
  | x :: y :: rest => x ++ sep ++ joinWithChars sep (y :: rest)

/-- Go `strings.Replace(s, pat, rep, 1)` on char lists: replace the first
occurrence of `pat`. -/
def replaceFirstChars (pat rep : List Char) : List Char → List Char
  | [] => []
  | x :: xs =>
    if pat.isPrefixOf (x :: xs) then rep ++ (x :: xs).drop pat.length
    else x :: replaceFirstChars pat rep xs

/-- Go `strings.Replace(s, pat, rep, 1)`. -/
def replaceFirst (s pat rep : String) : String :=
  ⟨replaceFirstChars pat.data rep.data s.data⟩

/-- Go `path.Join` for the clean components the pipeline uses. -/
def pathJoin (p1 p2 : String) : String := p1 ++ "/" ++ p2

/-- Go `path.Base`: the last slash-separated component. -/
def pathBase (s : String) : String :=
  ⟨(splitOnChar '/' s.data).getLastD s.data⟩

/-- The folder-name derivation in `UnzipVM`: `strings.Split` on "." and
`strings.Join` of all parts but the last. -/
def stripLastExt (s : String) : String :=
  ⟨joinWithChars ['.'] (splitOnChar '.' s.data).dropLast⟩

/-- A `(value, error)` style Go return. -/
inductive GoResult (α : Type)
  | ok (val : α)
  | error (msg : String)
deriving DecidableEq, Repr

/-- Record `VMImage` from utils/data.go: the archive URL and the URL of the
published MD5 checksum. -/
structure VMImage where
  fileURL : String
  md5URL : String
deriving DecidableEq, Repr

/-- The slice of `UserChoice` (utils/data.go) the pipeline consumes. -/
structure UserChoice where
  hypervisor : String
  vmImage : VMImage
  downloadPath : String
deriving DecidableEq, Repr

/-- A filesystem node: a directory or a regular file with its content
(byte sequences are modelled as strings). -/
inductive FsEntry
  | dir
  | file (content : String)
deriving DecidableEq, Repr

/-- Filesystem: association list from paths to entries; the first binding
for a path is the current one. -/
abbrev FileSystem := List (String × FsEntry)

/-- Stat/lookup: first binding for the path, if any. -/
def fsLookup (fs : FileSystem) (p : String) : Option FsEntry :=
  match fs.find? (fun e => e.1 = p) with
  | some e => some e.2
  | none => none

/-- Model of `os.Stat` success: the path has a binding. -/
def fsExists (fs : FileSystem) (p : String) : Bool :=
  (fs.find? (fun e => e.1 = p)).isSome

/-- A network request issued by the pipeline (`http.Get`). -/
inductive NetEvent
  | get (url : String)
deriving DecidableEq, Repr

/-- The remote side: the literal body served at the checksum URL and the
archive stream served at the file URL, as the chunks `io.Copy` reads. -/
structure Network where
  md5Body : String
  fileChunks : List String
deriving Repr

/-- Function `getOrigMd5` (vm.go): `http.Get` the checksum URL, `ioutil.ReadAll` the
body, and return it as a string — verbatim, no trimming. -/
def getOrigMd5 (net : Network) : String := net.md5Body

/-- Function `compareMd5` (vm.go) continues exactly when the two strings are equal
(otherwise the process exits with status 1). -/
def compareMd5 (md5str1 md5str2 : String) : Bool := md5str1 = md5str2

/-- State of `Md5Wrapper`: the bytes forwarded to the underlying writer (the
destination file) and the bytes fed to the md5 accumulator. -/
structure Md5Wrapper where
  written : String
  fed : String
deriving DecidableEq, Repr

/-- Method `Md5Wrapper.Write` (vm.go): forward the chunk to the writer, then feed
the same chunk to the md5 accumulator. -/
def md5WrapperWrite (mw : Md5Wrapper) (p : String) : Md5Wrapper :=
  ⟨mw.written ++ p, mw.fed ++ p⟩

/-- Model of `io.Copy(newFileMd5, vmSrc)`: stream every chunk through the wrapper. -/
def ioCopyMd5 (chunks : List String) : Md5Wrapper :=
  chunks.foldl md5WrapperWrite ⟨"", ""⟩

/-- Outcome of `DownloadVM`: the returned path, the `os.Exit(1)` taken by
`compareMd5` on mismatch, or a panic (e.g. `io.Copy` from a directory). -/
inductive DLResult
  | ok (path : String)
  | exitMismatch
  | panicked
deriving DecidableEq, Repr

/-- Function `DownloadVM` (vm.go): fetch the published MD5, then either verify an
already-present destination file by streaming it through MD5, or download
the archive through the `Md5Wrapper`; in both cases compare against the
published sum. `md5Hex` abstracts `fmt.Sprintf("%X", h.Sum(nil))` as a
function of the bytes fed to the accumulator. Returns the final
filesystem, the network requests issued in order, and the outcome. -/
def DownloadVM (md5Hex : String → String) (net : Network) (uc : UserChoice)
    (fs : FileSystem) : FileSystem × List NetEvent × DLResult :=
  let vmFile := pathJoin uc.downloadPath (pathBase uc.vmImage.fileURL)
  let origMd5 := getOrigMd5 net
  let ev0 : List NetEvent := [NetEvent.get uc.vmImage.md5URL]
  match fsLookup fs vmFile with
  | some (FsEntry.file content) =>
    let vmMd5 := md5Hex content
    if compareMd5 origMd5 vmMd5 then (fs, ev0, DLResult.ok vmFile)
    else (fs, ev0, DLResult.exitMismatch)
  | some FsEntry.dir => (fs, ev0, DLResult.panicked)
  | none =>
    let mw := ioCopyMd5 net.fileChunks
    let fs1 : FileSystem := (vmFile, FsEntry.file mw.written) :: fs
    let ev := ev0 ++ [NetEvent.get uc.vmImage.fileURL]
    let vmMd5 := md5Hex mw.fed
    if compareMd5 origMd5 vmMd5 then (fs1, ev, DLResult.ok vmFile)
    else (fs1, ev, DLResult.exitMismatch)

/-- One entry of the zip archive: name, directory flag, content. -/
structure ZipEntry where
  name : String
  isDir : Bool
  content : String
deriving DecidableEq, Repr

/-- The per-entry body of `UnzipVM`'s loop: if the target path already
exists, record it and skip; else if the entry is a directory marker, make
the directory; else write the file and record its path. -/
def unzipStep (unzipFolder : String) (st : FileSystem × List String)
    (file : ZipEntry) : FileSystem × List String :=
  let filePath := pathJoin unzipFolder file.name
  if fsExists st.1 filePath then (st.1, st.2 ++ [filePath])
  else if file.isDir then ((filePath, FsEntry.dir) :: st.1, st.2)
  else ((filePath, FsEntry.file file.content) :: st.1, st.2 ++ [filePath])

/-- The extraction loop of `UnzipVM` over all archive entries. -/
def unzipRun (unzipFolder : String) (archive : List ZipEntry)
    (fs : FileSystem) : FileSystem × List String :=
  archive.foldl (unzipStep unzipFolder) (fs, [])

/-- The suffix table of `vmFilePath` (vm.go, final revision): the switch
over the four supported hypervisors, "" otherwise. -/
def searchSuffix (hypervisor : String) : String :=
  if hypervisor = "VirtualBox" then ".ova"
  else if hypervisor = "VMware" then ".ovf"
  else if hypervisor = "HyperV" then ".xml"
  else if hypervisor = "Parallels" then ".pvs"
  else ""

/-- Function `vmFilePath` (vm.go): with a non-empty suffix, return the first
collected path ending with it; otherwise (or when nothing matches) return
the error. -/
def vmFilePath (hypervisor : String) (collectedPaths : List String) :
    GoResult String :=
  let search := searchSuffix hypervisor
  if search ≠ "" then
    match collectedPaths.find? (fun vmPath => hasSuffix vmPath search) with
    | some vmPath => GoResult.ok vmPath
    | none => GoResult.error ("Din't find VM path for " ++ hypervisor)
  else GoResult.error ("Din't find VM path for " ++ hypervisor)

/-- Function `UnzipVM` (vm.go): derive the destination folder from the archive path
with its final extension stripped, create it if absent, run the extraction
loop, then select the entry point for the chosen hypervisor. The parsed
archive stands for `zip.OpenReader` on the archive path. -/
def UnzipVM (uc : UserChoice) (archive : List ZipEntry) (fs : FileSystem) :
    FileSystem × GoResult String :=
  let vmPath := pathJoin uc.downloadPath (pathBase uc.vmImage.fileURL)
  let unzipFolder := stripLastExt vmPath
  let fs1 := if fsExists fs unzipFolder then fs
             else (unzipFolder, FsEntry.dir) :: fs
  let res := unzipRun unzipFolder archive fs1
  (res.1, vmFilePath uc.hypervisor res.2)

/-- An external tool invocation (`exec.Command`). -/
inductive ProcAction
  | run (cmd : String) (args : List String)
deriving DecidableEq, Repr

/-- The host environment for `InstallVM`: whether each hypervisor's check
succeeds, and the `.vmx` content `ovftool` would produce. -/
structure ToolWorld where
  virtualboxOk : Bool
  vmwareOk : Bool
  hypervOk : Bool
  parallelsOk : Bool
  ovftoolOut : String
deriving Repr

/-- Function `convertVmware` (vm.go): derive the `.vmx` path by replacing the first
`.ovf`; `ovftool` fails if the `.vmx` already exists, else it writes the
converted file and the path is returned. -/
def vmwareConvert (convOut : String) (fs : FileSystem) (ovfPath : String) :
    FileSystem × GoResult String :=
  let vmxPath := replaceFirst ovfPath ".ovf" ".vmx"
  if fsExists fs vmxPath then (fs, GoResult.error "ovftool failed")
  else ((vmxPath, FsEntry.file convOut) :: fs, GoResult.ok vmxPath)

/-- The four network-adapter lines `fixVmwareNetwork` appends. -/
def vmwareNetworkLines : String :=
  "ethernet0.present = \"TRUE\"\n" ++
  "ethernet0.connectionType = \"nat\"\n" ++
  "ethernet0.wakeOnPcktRcv = \"FALSE\"\n" ++
  "ethernet0.addressType = \"generated\"\n"

/-- Function `fixVmwareNetwork` (vm.go): if the `.vmx` file exists, open it with
`O_APPEND` and append the four fixed lines; otherwise do nothing. -/
def vmwareFixNetwork (fs : FileSystem) (vmxPath : String) : FileSystem :=
  match fsLookup fs vmxPath with
  | some (FsEntry.file c) =>
    (vmxPath, FsEntry.file (c ++ vmwareNetworkLines)) :: fs
  | _ => fs

/-- Function `InstallVM` (vm.go, final revision): the switch over hypervisors; each
branch runs the tool checks and, on success, the import commands; VMware
additionally converts the `.ovf` and fixes the network configuration. The
default branch only prints that the hypervisor isn't supported. -/
def InstallVM (w : ToolWorld) (hypervisor vmPath : String)
    (fs : FileSystem) : FileSystem × List ProcAction :=
  if hypervisor = "VirtualBox" then
    let checkActs := [ProcAction.run "vboxmanage" ["--version"]]
    if w.virtualboxOk then
      (fs, checkActs ++ [ProcAction.run "vboxmanage" ["import", vmPath]])
    else (fs, checkActs)
  else if hypervisor = "VMware" then
    let checkActs := [ProcAction.run "ovftool" ["--version"],
                      ProcAction.run "vmrun" []]
    if w.vmwareOk then
      let vmxPath := replaceFirst vmPath ".ovf" ".vmx"
      let convActs := checkActs ++ [ProcAction.run "ovftool" [vmPath, vmxPath]]
      match vmwareConvert w.ovftoolOut fs vmPath with
      | (fs1, GoResult.ok vp) =>
        let fs2 := vmwareFixNetwork fs1 vp
        (fs2, convActs ++ [ProcAction.run "vmrun" ["start", vp],
                           ProcAction.run "vmrun" ["stop", vp]])
      | (fs1, GoResult.error _) => (fs1, convActs)
    else (fs, checkActs)
  else if hypervisor = "HyperV" then
    let checkActs := [ProcAction.run "powershell" ["-Command", "Get-Host"],
      ProcAction.run "powershell" ["-Command", "Get-Command", "-Module", "Hyper-V"]]
    if w.hypervOk then
      (fs, checkActs ++ [ProcAction.run "powershell"
        ["-Command", "Import-VM", "-Path", "'" ++ vmPath ++ "'"]])
    else (fs, checkActs)
  else if hypervisor = "Parallels" then
    let checkActs := [ProcAction.run "prlsrvctl" ["info"]]
    if w.parallelsOk then
      (fs, checkActs ++ [ProcAction.run "prlctl" ["register", vmPath]])
    else (fs, checkActs)
  else (fs, [])

/-- Whitespace per the spec's "surrounding whitespace trimmed". -/
def isSpaceChar (c : Char) : Bool :=
  c = ' ' || c = '\n' || c = '\t' || c = '\r'

/-- Modelled from the spec: the trimming `fetchExpectedChecksum` is said to
perform — strip surrounding whitespace from the response body. -/
def specTrim (s : String) : String :=
  ⟨((s.data.dropWhile isSpaceChar).reverse.dropWhile isSpaceChar).reverse⟩

/-! ## Helper lemmas -/

theorem fsLookup_cons_self (p : String) (v : FsEntry) (fs : FileSystem) :
    fsLookup ((p, v) :: fs) p = some v := by
  simp [fsLookup, List.find?_cons]

theorem fsLookup_cons_ne (q p : String) (v : FsEntry) (fs : FileSystem)
    (h : q ≠ p) : fsLookup ((q, v) :: fs) p = fsLookup fs p := by
  simp [fsLookup, List.find?_cons, h]

theorem fsExists_cons (q p : String) (v : FsEntry) (fs : FileSystem) :
    fsExists ((q, v) :: fs) p = (decide (q = p) || fsExists fs p) := by
  by_cases h : q = p <;> simp [fsExists, List.find?_cons, h]

theorem fsExists_of_lookup (fs : FileSystem) (p : String) (v : FsEntry)
    (h : fsLookup fs p = some v) : fsExists fs p = true := by
  unfold fsLookup at h
  unfold fsExists
  cases hf : List.find? (fun e => e.1 = p) fs with
  | none => rw [hf] at h; exact absurd h (by simp)
  | some e => simp

theorem compareMd5_eq_true (a b : String) (h : a = b) :
    compareMd5 a b = true := by simp [compareMd5, h]

theorem compareMd5_eq_false (a b : String) (h : a ≠ b) :
    compareMd5 a b = false := by simp [compareMd5, h]

theorem foldl_md5_fed_eq_written (chunks : List String) (mw : Md5Wrapper)
    (h : mw.fed = mw.written) :
    (chunks.foldl md5WrapperWrite mw).fed
      = (chunks.foldl md5WrapperWrite mw).written := by
  induction chunks generalizing mw with
  | nil => exact h
  | cons c cs ih => exact ih (md5WrapperWrite mw c) (by simp [md5WrapperWrite, h])

theorem ioCopyMd5_fed_eq_written (chunks : List String) :
    (ioCopyMd5 chunks).fed = (ioCopyMd5 chunks).written :=
  foldl_md5_fed_eq_written chunks ⟨"", ""⟩ rfl

/-! ## Claim theorems -/

/-- C2: for a destination file that already exists and whose computed
checksum differs from the published one, `DownloadVM` aborts with the
mismatch outcome, leaves the filesystem untouched (no overwrite, no
delete), and issues no network request beyond the checksum fetch — in
particular it does not re-download the archive. -/
theorem C2_fail_closed_integrity (md5Hex : String → String) (net : Network)
    (uc : UserChoice) (fs : FileSystem) (content : String)
    (hfile : fsLookup fs (pathJoin uc.downloadPath (pathBase uc.vmImage.fileURL))
      = some (FsEntry.file content))
    (hne : md5Hex content ≠ getOrigMd5 net) :
    DownloadVM md5Hex net uc fs
      = (fs, [NetEvent.get uc.vmImage.md5URL], DLResult.exitMismatch) := by
  have hne' : ¬(getOrigMd5 net = md5Hex content) := fun h => hne h.symm
  unfold DownloadVM
  simp only [hfile]
  rw [compareMd5_eq_false _ _ hne']
  simp

theorem C2_fail_closed_integrity_witness :
    DownloadVM (fun _ => "A") ⟨"B", []⟩
        ⟨"VMware", ⟨"http://x/win.zip", "http://x/m"⟩, "dl"⟩
        [("dl/win.zip", FsEntry.file "bytes")]
      = ([("dl/win.zip", FsEntry.file "bytes")],
         [NetEvent.get "http://x/m"], DLResult.exitMismatch) :=
  C2_fail_closed_integrity (fun _ => "A") ⟨"B", []⟩
    ⟨"VMware", ⟨"http://x/win.zip", "http://x/m"⟩, "dl"⟩
    [("dl/win.zip", FsEntry.file "bytes")] "bytes" (by decide) (by decide)

/-- C3 counterexample: with a pre-existing destination file whose checksum
matches, `DownloadVM` still performs network I/O — the checksum GET to the
MD5 URL — so the run's request trace is not empty, contradicting "performs
no network I/O at all". -/
theorem C3_counterexample :
    DownloadVM (fun _ => "H") ⟨"H", []⟩
        ⟨"VMware", ⟨"http://x/win.zip", "http://x/win.zip.md5"⟩, "dl"⟩
        [("dl/win.zip", FsEntry.file "bytes")]
      = ([("dl/win.zip", FsEntry.file "bytes")],
         [NetEvent.get "http://x/win.zip.md5"], DLResult.ok "dl/win.zip")
    ∧ [NetEvent.get "http://x/win.zip.md5"] ≠ ([] : List NetEvent) := by
  exact ⟨by decide, by decide⟩

/-- C3 (amended): for a destination file that already exists and matches
the published checksum, `DownloadVM` does not download the archive — the
only network request is the checksum GET — computes the existing file's
checksum from its streamed content, leaves the filesystem untouched, and
returns success. -/
theorem C3_idempotent_fetch (md5Hex : String → String) (net : Network)
    (uc : UserChoice) (fs : FileSystem) (content : String)
    (hfile : fsLookup fs (pathJoin uc.downloadPath (pathBase uc.vmImage.fileURL))
      = some (FsEntry.file content))
    (heq : md5Hex content = getOrigMd5 net) :
    DownloadVM md5Hex net uc fs
      = (fs, [NetEvent.get uc.vmImage.md5URL],
         DLResult.ok (pathJoin uc.downloadPath (pathBase uc.vmImage.fileURL))) := by
  unfold DownloadVM
  simp only [hfile]
  rw [compareMd5_eq_true _ _ heq.symm]
  simp

theorem C3_idempotent_fetch_witness :
    DownloadVM (fun _ => "H") ⟨"H", ["junk"]⟩
        ⟨"VirtualBox", ⟨"http://x/win.zip", "http://x/win.zip.md5"⟩, "dl"⟩
        [("dl/win.zip", FsEntry.file "bytes")]
      = ([("dl/win.zip", FsEntry.file "bytes")],
         [NetEvent.get "http://x/win.zip.md5"], DLResult.ok "dl/win.zip") :=
  C3_idempotent_fetch (fun _ => "H") ⟨"H", ["junk"]⟩
    ⟨"VirtualBox", ⟨"http://x/win.zip", "http://x/win.zip.md5"⟩, "dl"⟩
    [("dl/win.zip", FsEntry.file "bytes")] "bytes" (by decide) (by decide)

/-- C6: on a fresh download the MD5 accumulator is fed exactly the bytes
written to the destination file: after `DownloadVM` the destination holds
the bytes the wrapper wrote, the accumulator's fed bytes equal the written
bytes, and hence the single-pass hash equals the hash of independently
streaming the completed file. -/
theorem C6_single_pass_hashing (md5Hex : String → String) (net : Network)
    (uc : UserChoice) (fs : FileSystem)
    (hnone : fsLookup fs (pathJoin uc.downloadPath (pathBase uc.vmImage.fileURL))
      = none) :
    (ioCopyMd5 net.fileChunks).fed = (ioCopyMd5 net.fileChunks).written
    ∧ fsLookup (DownloadVM md5Hex net uc fs).1
        (pathJoin uc.downloadPath (pathBase uc.vmImage.fileURL))
      = some (FsEntry.file (ioCopyMd5 net.fileChunks).written)
    ∧ md5Hex (ioCopyMd5 net.fileChunks).fed
      = md5Hex (ioCopyMd5 net.fileChunks).written := by
  refine ⟨ioCopyMd5_fed_eq_written net.fileChunks, ?_, ?_⟩
  · unfold DownloadVM
    simp only [hnone]
    split
    · exact fsLookup_cons_self _ _ _
    · exact fsLookup_cons_self _ _ _
  · rw [ioCopyMd5_fed_eq_written net.fileChunks]

theorem C6_single_pass_hashing_witness :
    (ioCopyMd5 (["c1", "c2"] : List String)).fed
        = (ioCopyMd5 (["c1", "c2"] : List String)).written
    ∧ fsLookup (DownloadVM (fun _ => "H") ⟨"H", ["c1", "c2"]⟩
          ⟨"VMware", ⟨"http://x/win.zip", "http://x/win.zip.md5"⟩, "dl"⟩ []).1
        (pathJoin "dl" (pathBase "http://x/win.zip"))
      = some (FsEntry.file (ioCopyMd5 (["c1", "c2"] : List String)).written)
    ∧ (fun _ => "H") (ioCopyMd5 (["c1", "c2"] : List String)).fed
      = (fun (_ : String) => "H") (ioCopyMd5 (["c1", "c2"] : List String)).written :=
  C6_single_pass_hashing (fun _ => "H") ⟨"H", ["c1", "c2"]⟩
    ⟨"VMware", ⟨"http://x/win.zip", "http://x/win.zip.md5"⟩, "dl"⟩ [] (by decide)

/-- C7 counterexample: for a checksum response body with trailing
whitespace, `getOrigMd5` returns the body verbatim, which differs from the
trimmed body the claim describes. -/
theorem C7_counterexample :
    getOrigMd5 ⟨"ABC\n", []⟩ = "ABC\n"
    ∧ specTrim "ABC\n" = "ABC"
    ∧ getOrigMd5 ⟨"ABC\n", []⟩ ≠ specTrim "ABC\n" :=
  ⟨rfl, by decide, by decide⟩

/-- C7 (amended): `getOrigMd5` returns the literal HTTP response body
verbatim — no trimming of surrounding whitespace is performed. -/
theorem C7_literal_body (net : Network) : getOrigMd5 net = net.md5Body := rfl

/-- C4 counterexample: with two collected paths both ending in the
VirtualBox suffix, `vmFilePath` succeeds with the first one instead of
treating the ambiguity as a terminal error. -/
theorem C4_counterexample :
    (["a.ova", "b.ova"].filter
        (fun p => hasSuffix p (searchSuffix "VirtualBox"))).length = 2
    ∧ vmFilePath "VirtualBox" ["a.ova", "b.ova"] = GoResult.ok "a.ova" :=
  ⟨by decide, by decide⟩

/-- C4 (amended): for a supported backend, `vmFilePath` returns the first
collected path ending with the backend's suffix; zero matches yields the
entry-point-not-found error; more than one match is not an error — the
first match is selected. -/
theorem C4_entry_point_selection (h : String) (paths : List String)
    (hs : searchSuffix h ≠ "") :
    ((∀ p ∈ paths, hasSuffix p (searchSuffix h) = false) →
      vmFilePath h paths = GoResult.error ("Din't find VM path for " ++ h))
    ∧ (∀ p, paths.find? (fun q => hasSuffix q (searchSuffix h)) = some p →
      vmFilePath h paths = GoResult.ok p) := by
  constructor
  · intro hnone
    unfold vmFilePath
    rw [if_pos hs]
    have hfind : paths.find? (fun q => hasSuffix q (searchSuffix h)) = none := by
      rw [List.find?_eq_none]
      intro x hx
      simp [hnone x hx]
    rw [hfind]
  · intro p hp
    unfold vmFilePath
    rw [if_pos hs, hp]

theorem C4_entry_point_selection_witness :
    vmFilePath "HyperV" ["a.txt", "b.xml"] = GoResult.ok "b.xml" :=
  (C4_entry_point_selection "HyperV" ["a.txt", "b.xml"] (by decide)).2
    "b.xml" (by decide)

/-- C9: when at least two collected paths end with the active backend's
suffix, `vmFilePath` returns the first matching path in collection order
and reports no error about the later matches. -/
theorem C9_first_match_wins (h : String) (paths : List String) (p : String)
    (hs : searchSuffix h ≠ "")
    (hfind : paths.find? (fun q => hasSuffix q (searchSuffix h)) = some p)
    (_hmulti : 2 ≤ (paths.filter (fun q => hasSuffix q (searchSuffix h))).length) :
    vmFilePath h paths = GoResult.ok p := by
  unfold vmFilePath
  rw [if_pos hs, hfind]

theorem C9_first_match_wins_witness :
    vmFilePath "Parallels" ["x.pvs", "y.pvs", "z.txt"] = GoResult.ok "x.pvs" :=
  C9_first_match_wins "Parallels" ["x.pvs", "y.pvs", "z.txt"] "x.pvs"
    (by decide) (by decide) (by decide)

/-- C8: when the `.vmx` target does not yet exist, the VMware Prepare step
succeeds: `vmwareConvert` writes the conversion tool's output to the
`.vmx` path, and `vmwareFixNetwork` leaves that file equal to the
converter's output with exactly the four fixed network-adapter lines
appended, modifying no other path. -/
theorem C8_prepare_appends_network_lines (convOut : String) (fs : FileSystem)
    (ovfPath : String)
    (hnew : fsExists fs (replaceFirst ovfPath ".ovf" ".vmx") = false) :
    vmwareConvert convOut fs ovfPath
      = ((replaceFirst ovfPath ".ovf" ".vmx", FsEntry.file convOut) :: fs,
         GoResult.ok (replaceFirst ovfPath ".ovf" ".vmx"))
    ∧ fsLookup
        (vmwareFixNetwork
          ((replaceFirst ovfPath ".ovf" ".vmx", FsEntry.file convOut) :: fs)
          (replaceFirst ovfPath ".ovf" ".vmx"))
        (replaceFirst ovfPath ".ovf" ".vmx")
      = some (FsEntry.file (convOut ++ vmwareNetworkLines))
    ∧ ∀ p, p ≠ replaceFirst ovfPath ".ovf" ".vmx" →
        fsLookup
          (vmwareFixNetwork
            ((replaceFirst ovfPath ".ovf" ".vmx", FsEntry.file convOut) :: fs)
            (replaceFirst ovfPath ".ovf" ".vmx"))
          p
        = fsLookup fs p := by
  refine ⟨?_, ?_, ?_⟩
  · unfold vmwareConvert
    simp only [hnew]
    simp
  · unfold vmwareFixNetwork
    rw [fsLookup_cons_self]
    exact fsLookup_cons_self _ _ _
  · intro p hp
    unfold vmwareFixNetwork
    rw [fsLookup_cons_self]
    rw [fsLookup_cons_ne _ _ _ _ (fun h => hp h.symm)]
    rw [fsLookup_cons_ne _ _ _ _ (fun h => hp h.symm)]

theorem C8_prepare_appends_network_lines_witness :
    vmwareConvert "cfg\n" [("w/a.ovf", FsEntry.file "ovf")] "w/a.ovf"
      = (("w/a.vmx", FsEntry.file "cfg\n") :: [("w/a.ovf", FsEntry.file "ovf")],
         GoResult.ok "w/a.vmx")
    ∧ fsLookup
        (vmwareFixNetwork
          (("w/a.vmx", FsEntry.file "cfg\n") :: [("w/a.ovf", FsEntry.file "ovf")])
          "w/a.vmx") "w/a.vmx"
      = some (FsEntry.file ("cfg\n" ++ vmwareNetworkLines))
    ∧ ∀ p, p ≠ "w/a.vmx" →
        fsLookup
          (vmwareFixNetwork
            (("w/a.vmx", FsEntry.file "cfg\n") :: [("w/a.ovf", FsEntry.file "ovf")])
            "w/a.vmx") p
        = fsLookup [("w/a.ovf", FsEntry.file "ovf")] p := by
  have h := C8_prepare_appends_network_lines "cfg\n"
    [("w/a.ovf", FsEntry.file "ovf")] "w/a.ovf" (by decide)
  have hpath : replaceFirst "w/a.ovf" ".ovf" ".vmx" = "w/a.vmx" := by decide
  rw [hpath] at h
  exact h

/-! ## Extraction-loop lemmas -/

theorem filter_cons_pos {α : Type} (p : α → Bool) (a : α) (l : List α)
    (h : p a = true) : (a :: l).filter p = a :: l.filter p := by
  simp [List.filter_cons, h]

theorem filter_cons_neg {α : Type} (p : α → Bool) (a : α) (l : List α)
    (h : p a = false) : (a :: l).filter p = l.filter p := by
  simp [List.filter_cons, h]

theorem find_cons_pos {α : Type} (p : α → Bool) (a : α) (l : List α)
    (h : p a = true) : (a :: l).find? p = some a := by
  simp [List.find?_cons, h]

theorem find_cons_neg {α : Type} (p : α → Bool) (a : α) (l : List α)
    (h : p a = false) : (a :: l).find? p = l.find? p := by
  simp [List.find?_cons, h]

theorem unzipStep_of_exists (folder : String) (fs : FileSystem)
    (col : List String) (e : ZipEntry)
    (h : fsExists fs (pathJoin folder e.name) = true) :
    unzipStep folder (fs, col) e = (fs, col ++ [pathJoin folder e.name]) := by
  simp [unzipStep, h]

theorem unzipStep_of_dir (folder : String) (fs : FileSystem)
    (col : List String) (e : ZipEntry)
    (h : fsExists fs (pathJoin folder e.name) = false) (hd : e.isDir = true) :
    unzipStep folder (fs, col) e
      = ((pathJoin folder e.name, FsEntry.dir) :: fs, col) := by
  simp [unzipStep, h, hd]

theorem unzipStep_of_file (folder : String) (fs : FileSystem)
    (col : List String) (e : ZipEntry)
    (h : fsExists fs (pathJoin folder e.name) = false) (hd : e.isDir = false) :
    unzipStep folder (fs, col) e
      = ((pathJoin folder e.name, FsEntry.file e.content) :: fs,
         col ++ [pathJoin folder e.name]) := by
  simp [unzipStep, h, hd]

theorem foldl_unzip_preserves_lookup (folder : String) (arch : List ZipEntry) :
    ∀ (fs : FileSystem) (col : List String) (p : String) (v : FsEntry),
    fsLookup fs p = some v →
    fsLookup (arch.foldl (unzipStep folder) (fs, col)).1 p = some v := by
  induction arch with
  | nil => intro fs col p v h; exact h
  | cons e rest ih =>
    intro fs col p v h
    rw [List.foldl_cons]
    by_cases hex : fsExists fs (pathJoin folder e.name) = true
    · rw [unzipStep_of_exists folder fs col e hex]
      exact ih fs _ p v h
    · have hex' : fsExists fs (pathJoin folder e.name) = false := by
        simpa using hex
      have hne : pathJoin folder e.name ≠ p := by
        intro hEq
        rw [hEq] at hex'
        simp [fsExists_of_lookup fs p v h] at hex'
      cases hd : e.isDir
      · rw [unzipStep_of_file folder fs col e hex' hd]
        exact ih _ _ p v (by rw [fsLookup_cons_ne _ _ _ _ hne]; exact h)
      · rw [unzipStep_of_dir folder fs col e hex' hd]
        exact ih _ _ p v (by rw [fsLookup_cons_ne _ _ _ _ hne]; exact h)

theorem find_eq_head_filter {α : Type} (p : α → Bool) (l : List α) :
    l.find? p = (l.filter p).head? := by
  induction l with
  | nil => rfl
  | cons a t ih =>
    cases h : p a
    · rw [find_cons_neg p a t h, filter_cons_neg p a t h]; exact ih
    · rw [find_cons_pos p a t h, filter_cons_pos p a t h]; rfl

theorem foldl_unzip_col_mem (folder : String) (arch : List ZipEntry) :
    ∀ (fs : FileSystem) (col : List String) (x : String), x ∈ col →
    x ∈ (arch.foldl (unzipStep folder) (fs, col)).2 := by
  induction arch with
  | nil => intro fs col x hx; exact hx
  | cons e rest ih =>
    intro fs col x hx
    rw [List.foldl_cons]
    by_cases hex : fsExists fs (pathJoin folder e.name) = true
    · rw [unzipStep_of_exists folder fs col e hex]
      exact ih _ _ x (List.mem_append_left _ hx)
    · have hex' : fsExists fs (pathJoin folder e.name) = false := by
        simpa using hex
      cases hd : e.isDir
      · rw [unzipStep_of_file folder fs col e hex' hd]
        exact ih _ _ x (List.mem_append_left _ hx)
      · rw [unzipStep_of_dir folder fs col e hex' hd]
        exact ih _ _ x hx

theorem mem_collected_of_file (folder : String) (arch : List ZipEntry) :
    ∀ (fs : FileSystem) (col : List String) (e : ZipEntry),
    e ∈ arch → e.isDir = false →
    pathJoin folder e.name ∈ (arch.foldl (unzipStep folder) (fs, col)).2 := by
  induction arch with
  | nil => intro fs col e he _; exact absurd he (List.not_mem_nil e)
  | cons a rest ih =>
    intro fs col e he hd
    rw [List.foldl_cons]
    rcases List.mem_cons.mp he with heq | hmem
    · subst heq
      by_cases hex : fsExists fs (pathJoin folder e.name) = true
      · rw [unzipStep_of_exists folder fs col e hex]
        exact foldl_unzip_col_mem folder rest _ _ _
          (List.mem_append_right _ (by simp))
      · have hex' : fsExists fs (pathJoin folder e.name) = false := by
          simpa using hex
        rw [unzipStep_of_file folder fs col e hex' hd]
        exact foldl_unzip_col_mem folder rest _ _ _
          (List.mem_append_right _ (by simp))
    · by_cases hex : fsExists fs (pathJoin folder a.name) = true
      · rw [unzipStep_of_exists folder fs col a hex]
        exact ih _ _ e hmem hd
      · have hex' : fsExists fs (pathJoin folder a.name) = false := by
          simpa using hex
        cases hda : a.isDir
        · rw [unzipStep_of_file folder fs col a hex' hda]
          exact ih _ _ e hmem hd
        · rw [unzipStep_of_dir folder fs col a hex' hda]
          exact ih _ _ e hmem hd

theorem foldl_unzip_collected_filter (folder sfx : String)
    (arch : List ZipEntry) :
    ∀ (fs : FileSystem) (col : List String),
    (∀ e ∈ arch, e.isDir = true → hasSuffix (pathJoin folder e.name) sfx = false) →
    ((arch.foldl (unzipStep folder) (fs, col)).2).filter
        (fun q => hasSuffix q sfx)
      = col.filter (fun q => hasSuffix q sfx)
        ++ (arch.filter
            (fun e => !e.isDir && hasSuffix (pathJoin folder e.name) sfx)).map
            (fun e => pathJoin folder e.name) := by
  induction arch with
  | nil => intro fs col _; simp
  | cons e rest ih =>
    intro fs col hdir
    have hdir' : ∀ x ∈ rest, x.isDir = true →
        hasSuffix (pathJoin folder x.name) sfx = false :=
      fun x hx => hdir x (List.mem_cons_of_mem _ hx)
    rw [List.foldl_cons]
    by_cases hex : fsExists fs (pathJoin folder e.name) = true
    · rw [unzipStep_of_exists folder fs col e hex]
      rw [ih fs (col ++ [pathJoin folder e.name]) hdir']
      rw [List.filter_append]
      cases hd : e.isDir
      · cases hs : hasSuffix (pathJoin folder e.name) sfx
        · rw [filter_cons_neg
            (fun x => !x.isDir && hasSuffix (pathJoin folder x.name) sfx) e rest
            (by simp [hd, hs])]
          simp [List.filter_cons, hs]
        · rw [filter_cons_pos
            (fun x => !x.isDir && hasSuffix (pathJoin folder x.name) sfx) e rest
            (by simp [hd, hs])]
          rw [List.map_cons]
          simp [List.filter_cons, hs]
      · have hs := hdir e (List.mem_cons_self e rest) hd
        rw [filter_cons_neg
          (fun x => !x.isDir && hasSuffix (pathJoin folder x.name) sfx) e rest
          (by simp [hd])]
        simp [List.filter_cons, hs]
    · have hex' : fsExists fs (pathJoin folder e.name) = false := by
        simpa using hex
      cases hd : e.isDir
      · rw [unzipStep_of_file folder fs col e hex' hd]
        rw [ih _ (col ++ [pathJoin folder e.name]) hdir']
        rw [List.filter_append]
        cases hs : hasSuffix (pathJoin folder e.name) sfx
        · rw [filter_cons_neg
            (fun x => !x.isDir && hasSuffix (pathJoin folder x.name) sfx) e rest
            (by simp [hd, hs])]
          simp [List.filter_cons, hs]
        · rw [filter_cons_pos
            (fun x => !x.isDir && hasSuffix (pathJoin folder x.name) sfx) e rest
            (by simp [hd, hs])]
          rw [List.map_cons]
          simp [List.filter_cons, hs]
      · rw [unzipStep_of_dir folder fs col e hex' hd]
        rw [ih _ col hdir']
        rw [filter_cons_neg
          (fun x => !x.isDir && hasSuffix (pathJoin folder x.name) sfx) e rest
          (by simp [hd])]

/-- C1 counterexample: with the unsupported backend name "QEMU",
`UnzipVM` still extracts the archive's entry to disk — the destination
file exists in the final state though it did not before — and only then
returns the unsupported-backend error, so the failure is not detected
before filesystem writes. -/
theorem C1_counterexample :
    (UnzipVM ⟨"QEMU", ⟨"http://x/win.zip", "http://x/win.zip.md5"⟩, "dl"⟩
        [⟨"a.txt", false, "data"⟩] []).2
      = GoResult.error "Din't find VM path for QEMU"
    ∧ fsExists (UnzipVM ⟨"QEMU", ⟨"http://x/win.zip", "http://x/win.zip.md5"⟩, "dl"⟩
        [⟨"a.txt", false, "data"⟩] []).1 "dl/win/a.txt" = true
    ∧ fsExists [] "dl/win/a.txt" = false :=
  ⟨by decide, by decide, by decide⟩

/-- C1 (amended): for a backend name that is not one of the supported
hypervisors, `InstallVM` performs no process or filesystem side effect and
returns immediately, while `UnzipVM` performs the full extraction —
producing exactly the filesystem a supported-backend run would produce —
and only afterwards fails with the unsupported-backend error. -/
theorem C1_unsupported_backend (w : ToolWorld) (vmP : String)
    (fs : FileSystem) (uc : UserChoice) (arch : List ZipEntry)
    (fs0 : FileSystem) (hunsup : searchSuffix uc.hypervisor = "") :
    InstallVM w uc.hypervisor vmP fs = (fs, [])
    ∧ (UnzipVM uc arch fs0).1
        = (UnzipVM ⟨"VirtualBox", uc.vmImage, uc.downloadPath⟩ arch fs0).1
    ∧ (UnzipVM uc arch fs0).2
        = GoResult.error ("Din't find VM path for " ++ uc.hypervisor) := by
  have h1 : uc.hypervisor ≠ "VirtualBox" := by
    intro h; rw [h] at hunsup; exact absurd hunsup (by decide)
  have h2 : uc.hypervisor ≠ "VMware" := by
    intro h; rw [h] at hunsup; exact absurd hunsup (by decide)
  have h3 : uc.hypervisor ≠ "HyperV" := by
    intro h; rw [h] at hunsup; exact absurd hunsup (by decide)
  have h4 : uc.hypervisor ≠ "Parallels" := by
    intro h; rw [h] at hunsup; exact absurd hunsup (by decide)
  refine ⟨?_, rfl, ?_⟩
  · simp [InstallVM, h1, h2, h3, h4]
  · simp [UnzipVM, vmFilePath, hunsup]

theorem C1_unsupported_backend_witness :
    InstallVM ⟨true, true, true, true, "o"⟩ "QEMU" "v.ovf" [] = ([], [])
    ∧ (UnzipVM ⟨"QEMU", ⟨"http://x/w.zip", "http://x/w.zip.md5"⟩, "dd"⟩
        [⟨"f.ova", false, "c"⟩] []).2
      = GoResult.error ("Din't find VM path for " ++ "QEMU") := by
  have h := C1_unsupported_backend ⟨true, true, true, true, "o"⟩ "v.ovf" []
    ⟨"QEMU", ⟨"http://x/w.zip", "http://x/w.zip.md5"⟩, "dd"⟩
    [⟨"f.ova", false, "c"⟩] [] (by decide)
  exact ⟨h.1, h.2.2⟩

/-- C5 counterexample: for the archive with a directory entry `d.ovf` and
a file entry `a.ovf` under the VMware backend, extraction into an empty
destination selects `dl/win/a.ovf`, but extraction into a destination
already containing the `d.ovf` directory entry selects `dl/win/d.ovf`, so
the two runs do not yield the same entry-point path. -/
theorem C5_counterexample :
    (UnzipVM ⟨"VMware", ⟨"http://x/win.zip", "http://x/win.zip.md5"⟩, "dl"⟩
        [⟨"d.ovf", true, ""⟩, ⟨"a.ovf", false, "x"⟩] []).2
      = GoResult.ok "dl/win/a.ovf"
    ∧ (UnzipVM ⟨"VMware", ⟨"http://x/win.zip", "http://x/win.zip.md5"⟩, "dl"⟩
        [⟨"d.ovf", true, ""⟩, ⟨"a.ovf", false, "x"⟩]
        [("dl/win/d.ovf", FsEntry.dir)]).2
      = GoResult.ok "dl/win/d.ovf"
    ∧ ("dl/win/a.ovf" : String) ≠ "dl/win/d.ovf" :=
  ⟨by decide, by decide, by decide⟩

/-- C5 (amended): when no directory entry's target path ends with the
active backend's suffix, extraction never re-writes an existing entry
(every pre-existing binding survives unchanged), every file entry's path
is recorded as an entry-point candidate regardless of whether it
pre-existed, and a run on any pre-populated destination returns the same
entry-point result as a run on any other destination, in particular an
empty one. -/
theorem C5_resumable_extraction (uc : UserChoice) (arch : List ZipEntry)
    (fsA fsB : FileSystem)
    (hdir : ∀ e ∈ arch, e.isDir = true →
      hasSuffix
        (pathJoin (stripLastExt (pathJoin uc.downloadPath (pathBase uc.vmImage.fileURL)))
          e.name)
        (searchSuffix uc.hypervisor) = false) :
    (∀ p v, fsLookup fsA p = some v → fsLookup (UnzipVM uc arch fsA).1 p = some v)
    ∧ (∀ (fs : FileSystem), ∀ e ∈ arch, e.isDir = false →
        pathJoin (stripLastExt (pathJoin uc.downloadPath (pathBase uc.vmImage.fileURL)))
          e.name
        ∈ (unzipRun
            (stripLastExt (pathJoin uc.downloadPath (pathBase uc.vmImage.fileURL)))
            arch fs).2)
    ∧ (UnzipVM uc arch fsA).2 = (UnzipVM uc arch fsB).2 := by
  refine ⟨?_, ?_, ?_⟩
  · intro p v hv
    unfold UnzipVM unzipRun
    apply foldl_unzip_preserves_lookup
    by_cases hf : fsExists fsA
        (stripLastExt (pathJoin uc.downloadPath (pathBase uc.vmImage.fileURL))) = true
    · simp only [hf, if_true]
      exact hv
    · have hf' : fsExists fsA
          (stripLastExt (pathJoin uc.downloadPath (pathBase uc.vmImage.fileURL)))
          = false := by simpa using hf
      simp only [hf']
      have hne : stripLastExt (pathJoin uc.downloadPath (pathBase uc.vmImage.fileURL))
          ≠ p := by
        intro hEq
        rw [hEq] at hf'
        simp [fsExists_of_lookup fsA p v hv] at hf'
      simp only [Bool.false_eq_true, if_false]
      rw [fsLookup_cons_ne _ _ _ _ hne]
      exact hv
  · intro fs e he hd
    unfold unzipRun
    exact mem_collected_of_file _ arch fs [] e he hd
  · unfold UnzipVM unzipRun
    dsimp only
    by_cases hs : searchSuffix uc.hypervisor = ""
    · simp [vmFilePath, hs]
    · unfold vmFilePath
      rw [if_pos hs, if_pos hs]
      rw [find_eq_head_filter, find_eq_head_filter]
      rw [foldl_unzip_collected_filter
            (stripLastExt (pathJoin uc.downloadPath (pathBase uc.vmImage.fileURL)))
            (searchSuffix uc.hypervisor) arch _ [] hdir,
          foldl_unzip_collected_filter
            (stripLastExt (pathJoin uc.downloadPath (pathBase uc.vmImage.fileURL)))
            (searchSuffix uc.hypervisor) arch _ [] hdir]

theorem C5_resumable_extraction_witness :
    (UnzipVM ⟨"VMware", ⟨"http://h/vm.zip", "http://h/vm.zip.md5"⟩, "dd"⟩
        [⟨"sub.ovf", false, "y"⟩, ⟨"mdir", true, ""⟩, ⟨"sub.ovf", false, "y2"⟩] []).2
      = (UnzipVM ⟨"VMware", ⟨"http://h/vm.zip", "http://h/vm.zip.md5"⟩, "dd"⟩
        [⟨"sub.ovf", false, "y"⟩, ⟨"mdir", true, ""⟩, ⟨"sub.ovf", false, "y2"⟩]
        [("dd/vm/sub.ovf", FsEntry.file "y")]).2 :=
  (C5_resumable_extraction
    ⟨"VMware", ⟨"http://h/vm.zip", "http://h/vm.zip.md5"⟩, "dd"⟩
    [⟨"sub.ovf", false, "y"⟩, ⟨"mdir", true, ""⟩, ⟨"sub.ovf", false, "y2"⟩]
    [] [("dd/vm/sub.ovf", FsEntry.file "y")]
    (by decide)).2.2

/-- C10: in the extraction loop the already-exists check runs before the
directory check, so an entry — directory marker or not — whose target path
already exists is recorded as a candidate and the filesystem is untouched;
a directory marker whose target does not exist is created but never
recorded; concretely, a first run of a one-directory archive over an empty
destination records no candidates while the re-run over its own output
records the directory path, so the candidate set differs between runs. -/
theorem C10_exists_check_precedes_dir_check :
    (∀ (folder : String) (fs : FileSystem) (col : List String) (e : ZipEntry),
        fsExists fs (pathJoin folder e.name) = true →
        unzipStep folder (fs, col) e = (fs, col ++ [pathJoin folder e.name]))
    ∧ (∀ (folder : String) (fs : FileSystem) (col : List String) (e : ZipEntry),
        fsExists fs (pathJoin folder e.name) = false → e.isDir = true →
        unzipStep folder (fs, col) e
          = ((pathJoin folder e.name, FsEntry.dir) :: fs, col))
    ∧ (unzipRun "f" [⟨"m.xml", true, ""⟩] []).2 = ([] : List String)
    ∧ (unzipRun "f" [⟨"m.xml", true, ""⟩]
        (unzipRun "f" [⟨"m.xml", true, ""⟩] []).1).2 = ["f/m.xml"] :=
  ⟨unzipStep_of_exists, unzipStep_of_dir, by decide, by decide⟩

theorem C10_exists_check_precedes_dir_check_witness :
    unzipStep "g" ([("g/n.xml", FsEntry.dir)], ([] : List String)) ⟨"n.xml", true, ""⟩
      = ([("g/n.xml", FsEntry.dir)], [] ++ ["g/n.xml"]) :=
  C10_exists_check_precedes_dir_check.1 "g" [("g/n.xml", FsEntry.dir)] []
    ⟨"n.xml", true, ""⟩ (by decide)

end GetIE
